import Mathlib

/-!
Verification of the ImageNet downloader (src/main.py) against its
natural-language specification.  The Python source is shallowly embedded:
pure path manipulation is translated function-by-function from posixpath,
the archive extractor and the per-item pipeline become pure functions over
an explicit filesystem state, and the external libraries (PIL, the network)
are abstracted as oracles passed in as arguments.
-/

namespace ImagenetDL

/-! ## POSIX path model

Models the functions of Python os.path used by the source:
os.path.join, os.path.dirname, os.path.commonpath and str.startswith,
for the two-argument forms the source actually calls. -/

/-- First list starts with the second (character-level prefix test,
structural so that the kernel can evaluate it). -/
def charsStartWith : List Char → List Char → Bool
  | _, [] => true
  | [], _ :: _ => false
  | c :: s, d :: p => c = d && charsStartWith s p

/-- Models str.startswith. -/
def strStartsWith (s p : String) : Bool := charsStartWith s.data p.data

/-- Models str.endswith. -/
def strEndsWith (s p : String) : Bool :=
  charsStartWith s.data.reverse p.data.reverse

/-- Accumulator for splitSlash. -/
def splitSlashAux : List Char → List Char → List String
  | [], acc => [String.mk acc.reverse]
  | c :: rest, acc =>
    if c = '/' then String.mk acc.reverse :: splitSlashAux rest []
    else splitSlashAux rest (c :: acc)

/-- Models str.split with the separator slash (as commonpath performs
it): empty fields are kept. -/
def splitSlash (p : String) : List String := splitSlashAux p.data []

/-- Models the separator join sep.join(parts) with the slash separator. -/
def joinSlash : List String → String
  | [] => ""
  | [x] => x
  | x :: xs => x ++ "/" ++ joinSlash xs

/-- Models os.path.isabs for POSIX: a path is absolute iff it starts with
the separator. -/
def isAbsPath (p : String) : Bool := strStartsWith p "/"

/-- Models os.path.join(a, b) for POSIX paths: an absolute second component
discards the first; otherwise a separator is inserted unless the first
component is empty or already ends with one. -/
def pathJoin (a b : String) : String :=
  if strStartsWith b "/" then b
  else if a = "" || strEndsWith a "/" then a ++ b
  else a ++ "/" ++ b

/-- Models os.path.dirname(p) for POSIX: the text before the last
separator, with trailing separators stripped unless the result is all
separators. -/
def dirname (p : String) : String :=
  let cs := p.toList
  let i := cs.length - (cs.reverse.takeWhile (fun c => c ≠ '/')).length
  let head := cs.take i
  if head ≠ [] ∧ ¬ head.all (fun c => c = '/') then
    String.mk (head.reverse.dropWhile (fun c => c = '/')).reverse
  else String.mk head

/-- The component split performed inside os.path.commonpath: split on the
separator and drop empty components and single dots.  Note that
parent-directory components are NOT dropped or resolved. -/
def splitParts (p : String) : List String :=
  (splitSlash p).filter (fun c => c ≠ "" && c ≠ ".")

/-- Longest common prefix of two component lists (for a two-element input
list, the min/max trick of posixpath.commonpath computes exactly this). -/
def commonPrefixList : List String → List String → List String
  | a :: t1, b :: t2 => if a = b then a :: commonPrefixList t1 t2 else []
  | _, _ => []

/-- Models os.path.commonpath([p1, p2]).  Returns none where CPython
raises ValueError (mixing an absolute and a relative path). -/
def commonpath2 (p1 p2 : String) : Option String :=
  if isAbsPath p1 ≠ isAbsPath p2 then none
  else
    let common := commonPrefixList (splitParts p1) (splitParts p2)
    some ((if isAbsPath p1 then "/" else "") ++ joinSlash common)

/-- Lexical resolution of dot and dot-dot components, as the operating
system resolves them when a path is actually opened (no symlinks).  A
parent component above the root is dropped. -/
def resolveComponents (parts : List String) : List String :=
  parts.foldl
    (fun acc c =>
      if c = "" || c = "." then acc
      else if c = ".." then acc.dropLast
      else acc ++ [c]) []

/-- Where the operating system actually creates a file opened at the
absolute path p: its fully resolved form. -/
def resolvedAbs (p : String) : String :=
  "/" ++ joinSlash (resolveComponents (splitSlash p))

/-- d is an initial segment of f. -/
def isInitialSegment : List String → List String → Bool
  | [], _ => true
  | _ :: _, [] => false
  | a :: d, b :: f => a = b && isInitialSegment d f

/-- The path p, after resolution, denotes a location strictly inside the
directory dir (both absolute). -/
def strictlyInside (dir p : String) : Bool :=
  let d := resolveComponents (splitSlash dir)
  let f := resolveComponents (splitSlash p)
  isInitialSegment d f && !(d == f)

/-! ## Item Archive Processor: extract_tar (src/main.py lines 95-154)

Bytes are lists of naturals.  PIL is abstracted: an ImageOps record
carries the decoder (Image.open; none models the decode raising) and the
JPEG encoder (img.save with format JPEG quality 95; none models save
raising).  convert and resize are modelled on the image attributes the
claims speak about (mode, width, height).  A tar member stream
(tar.extractfile) is modelled with an explicit read position, because the
fallback path of the source depends on seek(0) after a consuming read. -/

/-- Abstraction of a PIL image: its size, its color mode and an opaque
pixel payload. -/
structure PILImage where
  width : Nat
  height : Nat
  mode : String
  payload : List Nat
deriving DecidableEq

/-- Models img.convert with argument RGB. -/
def convertRGB (img : PILImage) : PILImage := { img with mode := "RGB" }

/-- Models img.resize((w, h), Image.Resampling.LANCZOS). -/
def resizeLanczos (img : PILImage) (w h : Nat) : PILImage :=
  { img with width := w, height := h }

/-- The two external PIL operations the extractor calls, as oracles:
decode is Image.open plus the implicit parse (none when it raises),
encodeJPEG95 is img.save with format JPEG and quality 95 (none when the
save raises). -/
structure ImageOps where
  decode : List Nat → Option PILImage
  encodeJPEG95 : PILImage → Option (List Nat)

/-- The file object returned by tar.extractfile: the full entry bytes
plus the current read position. -/
structure EntryStream where
  data : List Nat
  pos : Nat
deriving DecidableEq

/-- Models f.read(): returns everything from the current position and
moves the position to the end. -/
def EntryStream.readAll (s : EntryStream) : List Nat × EntryStream :=
  (s.data.drop s.pos, { s with pos := s.data.length })

/-- Models f.seek(0). -/
def EntryStream.seekZero (s : EntryStream) : EntryStream := { s with pos := 0 }

/-- One archive member as tarfile presents it: its name, whether it is a
regular file, and its byte content. -/
structure TarMember where
  name : String
  isfile : Bool
  data : List Nat
deriving DecidableEq

/-- Models tar.extractfile(member): a stream at position 0 for a regular
file, none otherwise. -/
def extractfile (m : TarMember) : Option EntryStream :=
  if m.isfile then some ⟨m.data, 0⟩ else none

/-- The body of the per-member loop of extract_tar (src/main.py lines
122-151).  Returns an error where the Python body raises out of the loop
(only the ValueError of commonpath can), ok none where the member is
skipped, and ok (path, bytes) for the single file write the member
produces. -/
def processMember (ops : ImageOps) (dest_folder : String) (m : TarMember) :
    Except String (Option (String × List Nat)) :=
  let member_path := pathJoin dest_folder m.name
  match commonpath2 dest_folder member_path with
  | none => Except.error "ValueError: cannot mix absolute and relative paths"
  | some c =>
    if ¬ strStartsWith c dest_folder then Except.ok none
    else
      match extractfile m with
      | none => Except.ok none
      | some stream =>
        let r1 := stream.readAll
        match ops.decode r1.1 with
        | some img =>
          let img := convertRGB img
          let img := resizeLanczos img 256 256
          match ops.encodeJPEG95 img with
          | some out => Except.ok (some (member_path, out))
          | none =>
            let r2 := r1.2.seekZero.readAll
            Except.ok (some (member_path, r2.1))
        | none =>
          let r2 := r1.2.seekZero.readAll
          Except.ok (some (member_path, r2.1))

/-- The sequential member loop: an error aborts immediately (it
propagates out of the for loop), otherwise the produced writes are
collected in order. -/
def extractLoop (ops : ImageOps) (dest_folder : String) :
    List TarMember → Except String (List (String × List Nat))
  | [] => Except.ok []
  | m :: rest => do
    let w ← processMember ops dest_folder m
    let ws ← extractLoop ops dest_folder rest
    match w with
    | none => pure ws
    | some x => pure (x :: ws)

/-- Models extract_tar (src/main.py lines 95-154).  The archive argument
is none when tarfile.open raises (an unreadable archive); the outer
try/except re-raises, modelled by the error value.  Only regular-file
members are processed (line 118).  The result is the ordered list of
(path, bytes) file writes performed. -/
def extract_tar (ops : ImageOps) (part_id tar_path : String)
    (target_path : Option String) (archive : Option (List TarMember)) :
    Except String (List (String × List Nat)) :=
  let dest_folder :=
    match target_path with
    | some t => pathJoin t part_id
    | none => pathJoin (dirname tar_path) part_id
  match archive with
  | none => Except.error "could not open tar archive"
  | some members => extractLoop ops dest_folder (members.filter (fun m => m.isfile))

/-- The pure per-member outcome when the member does not raise: none if
skipped, some write otherwise. -/
def memberWrite (ops : ImageOps) (dest_folder : String) (m : TarMember) :
    Option (String × List Nat) :=
  match processMember ops dest_folder m with
  | Except.ok w => w
  | Except.error _ => none

/-- The security check of line 126 in isolation: true when the member is
not skipped (the commonpath of the destination directory and the joined
member path starts with the destination directory). -/
def passesCheck (dest_folder : String) (m : TarMember) : Bool :=
  match commonpath2 dest_folder (pathJoin dest_folder m.name) with
  | none => false
  | some c => strStartsWith c dest_folder

/-- An ImageOps in which nothing decodes as an image. -/
def rawOps : ImageOps := ⟨fun _ => none, fun _ => none⟩

/-! ## Resumable Item Pipeline: download_tar (src/main.py lines 156-292)

The paths download_tar manipulates are all derived from the base
directory and the item id (lines 188-205): the base directory itself, the
archive file base/id.tar, the extraction directory base/id, the
completion marker base/id/.download_complete, the shared failure log
base/failed_downloads.log, and the extracted files base/id/rel.  They are
modelled symbolically as an inductive path type; distinct constructors
correspond to the pairwise-distinct strings these derivations produce
(id.tar never collides with the directory id or anything under it, the
marker and the extracted files are the paths under the extraction
directory).  The filesystem is the set of existing files and directories
plus the lines of the failure log; the network and the extractor are
oracles (NetResult models the streamed GET of lines 227-249, where err
carries whether the body write had already created the archive file;
ExtractResult models the call to extract_tar of line 252, listing the
relative paths it wrote on success). -/

/-- The on-disk paths an item's pipeline touches. -/
inductive IPath where
  | baseDir (base : String)
  | tarFile (base id : String)
  | extractDir (base id : String)
  | marker (base id : String)
  | logFile (base : String)
  | extracted (base id rel : String)
deriving DecidableEq

/-- The paths that shutil.rmtree on the extraction directory base/id
removes: the directory itself and everything below it. -/
def underExtractDir (base id : String) : IPath → Bool
  | IPath.extractDir b i => b = base && i = id
  | IPath.marker b i => b = base && i = id
  | IPath.extracted b i _ => b = base && i = id
  | _ => false

/-- Filesystem state: existing regular files, existing directories, and
the content of the shared failure log as appended lines. -/
structure FS where
  files : List IPath
  dirs : List IPath
  logLines : List String
deriving DecidableEq

/-- Models os.path.exists. -/
def FS.pathExists (fs : FS) (p : IPath) : Bool :=
  decide (p ∈ fs.files) || decide (p ∈ fs.dirs)

/-- Models os.makedirs with exist_ok: a no-op when the directory already
exists. -/
def FS.makedirs (fs : FS) (p : IPath) : FS :=
  if p ∈ fs.dirs then fs else { fs with dirs := p :: fs.dirs }

/-- Models os.remove of a regular file. -/
def FS.removeFile (fs : FS) (p : IPath) : FS :=
  { fs with files := fs.files.filter (fun q => q ≠ p) }

/-- Models creating (or overwriting) a regular file; only existence is
tracked. -/
def FS.writeFile (fs : FS) (p : IPath) : FS :=
  if p ∈ fs.files then fs else { fs with files := p :: fs.files }

/-- Models shutil.rmtree of the extraction directory (line 216). -/
def FS.rmtree (fs : FS) (base id : String) : FS :=
  { fs with
    files := fs.files.filter (fun p => ¬ underExtractDir base id p)
    dirs := fs.dirs.filter (fun p => ¬ underExtractDir base id p) }

/-- Models the mutex-protected append to failed_downloads.log (lines
279-281). -/
def FS.appendLog (fs : FS) (line : String) : FS :=
  { fs with logLines := fs.logLines ++ [line] }

/-- The dictionary download_tar returns (lines 210, 269, 292). -/
structure DownloadResult where
  part_id : String
  success : Bool
  error : Option String
  skipped : Bool
deriving DecidableEq

/-- Outcome of the streamed GET: ok means the whole body was written to
the archive file; err models any exception out of the request or the
body loop, carrying whether the archive file had been created before the
failure. -/
inductive NetResult where
  | ok
  | err (msg : String) (tarCreated : Bool)
deriving DecidableEq

/-- Outcome of the extract_tar call: the relative paths written on
success, or the propagated exception message. -/
inductive ExtractResult where
  | ok (writes : List String)
  | err (msg : String)
deriving DecidableEq

/-- Result of one download_tar call: the filesystem afterwards, the
returned dictionary, and whether a network request was made. -/
structure DTState where
  fs : FS
  result : DownloadResult
  downloaded : Bool
deriving DecidableEq

/-- The stale-state cleanup of lines 212-221: unconditionally remove a
marker-less extraction directory and any leftover archive file. -/
def preClean (base id : String) (fs : FS) : FS :=
  let fs := if fs.pathExists (IPath.extractDir base id) then fs.rmtree base id else fs
  if fs.pathExists (IPath.tarFile base id) then fs.removeFile (IPath.tarFile base id) else fs

/-- The failure handler of lines 275-292: append to the failure log, then
remove the archive file when it exists, and return failure. -/
def failCleanup (id base msg : String) (fs : FS) : DTState :=
  let fs := fs.appendLog (id ++ " - " ++ msg)
  let fs := if fs.pathExists (IPath.tarFile base id) then fs.removeFile (IPath.tarFile base id) else fs
  ⟨fs, ⟨id, false, some msg, false⟩, true⟩

/-- The download / extract / mark phase of lines 224-292, entered only
when no completion marker exists. -/
def downloadPhase (id base : String) (delete_tar : Bool) (net : NetResult)
    (ext : ExtractResult) (fs : FS) : DTState :=
  match net with
  | NetResult.err msg tarCreated =>
    let fs := if tarCreated then fs.writeFile (IPath.tarFile base id) else fs
    failCleanup id base msg fs
  | NetResult.ok =>
    let fs := fs.writeFile (IPath.tarFile base id)
    match ext with
    | ExtractResult.err msg => failCleanup id base msg fs
    | ExtractResult.ok writes =>
      let fs := fs.makedirs (IPath.extractDir base id)
      let fs := writes.foldl (fun a w => a.writeFile (IPath.extracted base id w)) fs
      let fs := fs.writeFile (IPath.marker base id)
      let fs := if delete_tar then fs.removeFile (IPath.tarFile base id) else fs
      ⟨fs, ⟨id, true, none, false⟩, true⟩

/-- Models download_tar (src/main.py lines 156-292) over the symbolic
filesystem: create the base directory (line 187), return a skip when the
completion marker exists (lines 208-210), otherwise clean stale state
(lines 212-221) and run the download phase.  The slot allocator is
modelled separately (it does not touch the filesystem). -/
def download_tar (id base : String) (delete_tar : Bool) (net : NetResult)
    (ext : ExtractResult) (fs0 : FS) : DTState :=
  let fs := fs0.makedirs (IPath.baseDir base)
  if fs.pathExists (IPath.marker base id) then
    ⟨fs, ⟨id, true, none, true⟩, false⟩
  else
    downloadPhase id base delete_tar net ext (preClean base id fs)

/-! ## Batch Coordinator: download_batch (src/main.py lines 328-420) -/

/-- The statistics dictionary of line 375. -/
structure Stats where
  success : Nat
  failed : Nat
  skipped : Nat
deriving DecidableEq

/-- What the aggregation loop receives from one future (lines 395-410):
either the result dictionary, or an exception raised by future.result. -/
inductive WorkerOutcome where
  | result (r : DownloadResult)
  | exn (msg : String)
deriving DecidableEq

/-- One step of the aggregation loop (lines 397-410): a result increments
exactly one counter (skipped takes precedence, then success, else
failed); an exception is caught and counted as failed. -/
def tally (s : Stats) (o : WorkerOutcome) : Stats :=
  match o with
  | WorkerOutcome.result r =>
    if r.skipped then { s with skipped := s.skipped + 1 }
    else if r.success then { s with success := s.success + 1 }
    else { s with failed := s.failed + 1 }
  | WorkerOutcome.exn _ => { s with failed := s.failed + 1 }

/-- The aggregation of download_batch over the outcomes in their arrival
order (any interleaving of the worker pool yields some arrival order). -/
def download_batch_tally (os : List WorkerOutcome) : Stats :=
  os.foldl tally ⟨0, 0, 0⟩

/-- State threaded through a whole batch run: the statistics, the
filesystem, and how many network requests were made. -/
structure BatchState where
  stats : Stats
  fs : FS
  downloads : Nat
deriving DecidableEq

/-- One pipeline invocation plus its aggregation, as download_batch
performs per item. -/
def batchStep (base : String) (delete_tar : Bool) (net : String → NetResult)
    (ext : String → ExtractResult) (st : BatchState) (id : String) : BatchState :=
  let out := download_tar id base delete_tar (net id) (ext id) st.fs
  ⟨tally st.stats (WorkerOutcome.result out.result), out.fs,
    st.downloads + (if out.downloaded then 1 else 0)⟩

/-- Models download_batch (lines 328-420) with the per-item pipelines run
in some serial order and their oracles indexed by item id: the empty
input short-circuits (lines 348-350), otherwise each id runs
download_tar and its result is tallied. -/
def download_batch_run (ids : List String) (base : String) (delete_tar : Bool)
    (net : String → NetResult) (ext : String → ExtractResult) (fs : FS) : BatchState :=
  if ids.isEmpty then ⟨⟨0, 0, 0⟩, fs, 0⟩
  else ids.foldl (batchStep base delete_tar net ext) ⟨⟨0, 0, 0⟩, fs, 0⟩

/-! ## Slot Allocator: PositionManager (src/main.py lines 27-47)

The mutex serialises all acquire/release calls, so the concurrent object
is modelled by its serialised state transitions.  The dictionary in_use
is an association list with the overwrite semantics of a Python dict;
list.sort is insertion sort (any correct sort of naturals). -/

/-- The PositionManager state (lines 28-32). -/
structure PositionManager where
  max_workers : Nat
  available : List Nat
  in_use : List (String × Nat)
deriving DecidableEq

/-- PositionManager.__init__ (lines 28-32): all slots free, none in
use. -/
def PositionManager.init (n : Nat) : PositionManager := ⟨n, List.range n, []⟩

/-- Models task_id in self.in_use followed by self.in_use[task_id]. -/
def lookupOwner (l : List (String × Nat)) (t : String) : Option Nat :=
  (l.find? (fun q => decide (q.1 = t))).map (fun q => q.2)

/-- Models self.in_use[task_id] = pos (dict overwrite). -/
def setOwner (l : List (String × Nat)) (t : String) (pos : Nat) : List (String × Nat) :=
  (t, pos) :: l.filter (fun q => q.1 ≠ t)

/-- Models self.in_use.pop(task_id). -/
def removeOwner (l : List (String × Nat)) (t : String) : List (String × Nat) :=
  l.filter (fun q => q.1 ≠ t)

/-- PositionManager.acquire (lines 34-40): pop the first free slot and
record it for the owner, or fall back to 0 when the pool is empty. -/
def PositionManager.acquire (pm : PositionManager) (task : String) :
    Nat × PositionManager :=
  match pm.available with
  | pos :: rest =>
    (pos, { pm with available := rest, in_use := setOwner pm.in_use task pos })
  | [] => (0, pm)

/-- PositionManager.release (lines 42-47): return the owner's recorded
slot to the free list and re-sort it; a no-op for an unknown owner. -/
def PositionManager.release (pm : PositionManager) (task : String) : PositionManager :=
  match lookupOwner pm.in_use task with
  | some pos =>
    { pm with
      in_use := removeOwner pm.in_use task
      available := List.insertionSort (· ≤ ·) (pm.available ++ [pos]) }
  | none => pm

/-- One serialised call on the allocator. -/
inductive PMStep : PositionManager → PositionManager → Prop where
  | acquire (pm : PositionManager) (t : String) : PMStep pm (pm.acquire t).2
  | release (pm : PositionManager) (t : String) : PMStep pm (pm.release t)

/-- States reachable by some sequence of acquire/release calls from a
freshly constructed PositionManager with n slots. -/
inductive PMReach (n : Nat) : PositionManager → Prop where
  | init : PMReach n (PositionManager.init n)
  | step {pm pm' : PositionManager} : PMReach n pm → PMStep pm pm' → PMReach n pm'

/-- The allocator invariant: the constructed slot count is n, the free
list is sorted and holds only slots below n, and every recorded owner
holds a slot below n. -/
def PMInv (n : Nat) (pm : PositionManager) : Prop :=
  pm.max_workers = n ∧
  pm.available.Sorted (· ≤ ·) ∧
  (∀ x ∈ pm.available, x < n) ∧
  (∀ q ∈ pm.in_use, q.2 < n)

/-! ## Helper lemmas about the extractor -/

lemma passesCheck_spec {dest : String} {m : TarMember} (h : passesCheck dest m = true) :
    ∃ c, commonpath2 dest (pathJoin dest m.name) = some c ∧ strStartsWith c dest = true := by
  unfold passesCheck at h
  rcases hc : commonpath2 dest (pathJoin dest m.name) with _ | c
  · rw [hc] at h; exact absurd h (by simp)
  · rw [hc] at h; exact ⟨c, rfl, h⟩

lemma processMember_decode_fail (ops : ImageOps) (dest : String) (m : TarMember)
    (hf : m.isfile = true) (hchk : passesCheck dest m = true)
    (hd : ops.decode m.data = none) :
    processMember ops dest m = Except.ok (some (pathJoin dest m.name, m.data)) := by
  obtain ⟨c, hc, hs⟩ := passesCheck_spec hchk
  unfold processMember
  dsimp only
  rw [hc]
  simp only [hs, not_true_eq_false, if_false, extractfile, hf, if_true,
    EntryStream.readAll, EntryStream.seekZero, List.drop_zero, hd]

lemma processMember_decode_ok (ops : ImageOps) (dest : String) (m : TarMember)
    (img : PILImage) (out : List Nat)
    (hf : m.isfile = true) (hchk : passesCheck dest m = true)
    (hd : ops.decode m.data = some img)
    (he : ops.encodeJPEG95 (resizeLanczos (convertRGB img) 256 256) = some out) :
    processMember ops dest m = Except.ok (some (pathJoin dest m.name, out)) := by
  obtain ⟨c, hc, hs⟩ := passesCheck_spec hchk
  unfold processMember
  dsimp only
  rw [hc]
  simp only [hs, not_true_eq_false, if_false, extractfile, hf, if_true,
    EntryStream.readAll, List.drop_zero, hd, he]

lemma processMember_eq_ok_of_abs (ops : ImageOps) (dest : String) (m : TarMember)
    (h : isAbsPath (pathJoin dest m.name) = isAbsPath dest) :
    processMember ops dest m = Except.ok (memberWrite ops dest m) := by
  have hne : ¬ (isAbsPath dest ≠ isAbsPath (pathJoin dest m.name)) := by
    rw [h]
    exact fun hx => hx rfl
  have hc : commonpath2 dest (pathJoin dest m.name) =
      some ((if isAbsPath dest then "/" else "") ++
        joinSlash
          (commonPrefixList (splitParts dest) (splitParts (pathJoin dest m.name)))) := by
    unfold commonpath2
    rw [if_neg hne]
  rcases hp : processMember ops dest m with e | w
  · exfalso
    unfold processMember at hp
    dsimp only at hp
    rw [hc] at hp
    repeat' split at hp
    all_goals simp_all
  · unfold memberWrite
    rw [hp]

lemma extractLoop_eq_filterMap (ops : ImageOps) (dest : String) :
    ∀ ms : List TarMember,
      (∀ m ∈ ms, processMember ops dest m = Except.ok (memberWrite ops dest m)) →
      extractLoop ops dest ms = Except.ok (ms.filterMap (memberWrite ops dest))
  | [], _ => rfl
  | m :: rest, h => by
    have hm := h m (List.mem_cons_self m rest)
    have hr := extractLoop_eq_filterMap ops dest rest
      (fun x hx => h x (List.mem_cons_of_mem m hx))
    unfold extractLoop
    rw [hm, hr]
    rcases hw : memberWrite ops dest m with _ | x
    · simp [hw, List.filterMap_cons, Bind.bind, Except.bind, Pure.pure, Except.pure]
    · simp [hw, List.filterMap_cons, Bind.bind, Except.bind, Pure.pure, Except.pure]

lemma extract_tar_some (ops : ImageOps) (pid tp t : String)
    (members : List TarMember) :
    extract_tar ops pid tp (some t) (some members) =
      extractLoop ops (pathJoin t pid) (members.filter (fun m => m.isfile)) := rfl

/-! ## Claim theorems: the Item Archive Processor -/

/-- Claim C1, evidence of the code bug: the spec demands that an entry
whose relative path would escape the item's destination directory via
parent-directory segments is skipped and never written, but the check of
line 126 is built on os.path.commonpath, which does not resolve
parent-directory components.  At the concrete input below (item n001,
output root /data, one regular-file entry named ../evil.txt) extract_tar
performs a write whose path resolves to /data/evil.txt, which is not
inside the destination directory /data/n001. -/
theorem extract_tar_parent_traversal_escape :
    extract_tar rawOps "n001" "/data/n001.tar" (some "/data")
        (some [⟨"../evil.txt", true, [104, 105]⟩]) =
      Except.ok [("/data/n001/../evil.txt", [104, 105])] ∧
    resolvedAbs "/data/n001/../evil.txt" = "/data/evil.txt" ∧
    strictlyInside "/data/n001" (resolvedAbs "/data/n001/../evil.txt") = false :=
  ⟨rfl, rfl, rfl⟩

/-- Claim C7: an unreadable archive aborts extraction for the whole item
(the error is propagated), while every regular-file member is processed
independently: the loop never fails as a whole on member data (given
only that joining each member name does not flip path absoluteness, the
one case where the security check itself raises), and a member whose
decode fails contributes a raw copy of its bytes and processing
continues with the remaining members. -/
theorem extract_tar_error_semantics (ops : ImageOps) (pid tp t : String)
    (members : List TarMember)
    (h : ∀ m ∈ members,
      isAbsPath (pathJoin (pathJoin t pid) m.name) = isAbsPath (pathJoin t pid)) :
    extract_tar ops pid tp (some t) none = Except.error "could not open tar archive" ∧
    extract_tar ops pid tp (some t) (some members) =
      Except.ok ((members.filter (fun m => m.isfile)).filterMap
        (memberWrite ops (pathJoin t pid))) ∧
    (∀ m : TarMember, m.isfile = true → passesCheck (pathJoin t pid) m = true →
      ops.decode m.data = none →
      memberWrite ops (pathJoin t pid) m =
        some (pathJoin (pathJoin t pid) m.name, m.data)) := by
  refine ⟨rfl, ?_, ?_⟩
  · rw [extract_tar_some]
    exact extractLoop_eq_filterMap ops (pathJoin t pid)
      (members.filter (fun m => m.isfile))
      (fun m hm => processMember_eq_ok_of_abs ops (pathJoin t pid) m
        (h m (List.mem_of_mem_filter hm)))
  · intro m hf hchk hd
    unfold memberWrite
    rw [processMember_decode_fail ops (pathJoin t pid) m hf hchk hd]

/-- Witness for C7 at a concrete input: a two-member archive under
/data/n001 where nothing decodes; the unreadable-archive case errors and
both members are raw-copied in order. -/
theorem extract_tar_error_semantics_witness :
    extract_tar rawOps "n001" "/data/n001.tar" (some "/data") none =
      Except.error "could not open tar archive" ∧
    extract_tar rawOps "n001" "/data/n001.tar" (some "/data")
        (some [⟨"a.png", true, [1]⟩, ⟨"b.txt", true, [2, 3]⟩]) =
      Except.ok
        (([⟨"a.png", true, [1]⟩, ⟨"b.txt", true, [2, 3]⟩].filter
            (fun m : TarMember => m.isfile)).filterMap
          (memberWrite rawOps (pathJoin "/data" "n001"))) ∧
    memberWrite rawOps (pathJoin "/data" "n001") ⟨"a.png", true, [1]⟩ =
      some (pathJoin (pathJoin "/data" "n001") "a.png", [1]) := by
  have h := extract_tar_error_semantics rawOps "n001" "/data/n001.tar" "/data"
    [⟨"a.png", true, [1]⟩, ⟨"b.txt", true, [2, 3]⟩] (by decide)
  exact ⟨h.1, h.2.1, h.2.2 ⟨"a.png", true, [1]⟩ rfl (by decide) rfl⟩

/-- Claim C8: a regular-file member that is not a decodable image is
written verbatim, byte for byte: after the failed decode attempt has
consumed the member stream, the fallback seeks back to offset 0 and
re-reads, so the written bytes equal the member's original bytes
exactly, both for the member in isolation and through extract_tar on an
archive containing it. -/
theorem extract_tar_fallback_verbatim (ops : ImageOps) (t pid tp : String)
    (m : TarMember)
    (hf : m.isfile = true)
    (hchk : passesCheck (pathJoin t pid) m = true)
    (hd : ops.decode m.data = none) :
    processMember ops (pathJoin t pid) m =
      Except.ok (some (pathJoin (pathJoin t pid) m.name, m.data)) ∧
    extract_tar ops pid tp (some t) (some [m]) =
      Except.ok [(pathJoin (pathJoin t pid) m.name, m.data)] := by
  have h1 := processMember_decode_fail ops (pathJoin t pid) m hf hchk hd
  refine ⟨h1, ?_⟩
  have hmw : memberWrite ops (pathJoin t pid) m =
      some (pathJoin (pathJoin t pid) m.name, m.data) := by
    unfold memberWrite
    rw [h1]
  have h2 := extractLoop_eq_filterMap ops (pathJoin t pid) [m]
    (fun x hx => by
      rcases List.mem_singleton.mp hx with rfl
      rw [h1, hmw])
  rw [extract_tar_some, List.filter_cons_of_pos (by simpa using hf),
    List.filter_nil, h2]
  simp [List.filterMap_cons, hmw]

/-- Witness for C8 at a concrete input: a three-byte non-image member
round-trips byte for byte. -/
theorem extract_tar_fallback_verbatim_witness :
    processMember rawOps (pathJoin "/out" "n1") ⟨"notes.txt", true, [10, 20, 30]⟩ =
      Except.ok (some (pathJoin (pathJoin "/out" "n1") "notes.txt", [10, 20, 30])) ∧
    extract_tar rawOps "n1" "/out/n1.tar" (some "/out")
        (some [⟨"notes.txt", true, [10, 20, 30]⟩]) =
      Except.ok [(pathJoin (pathJoin "/out" "n1") "notes.txt", [10, 20, 30])] :=
  extract_tar_fallback_verbatim rawOps "/out" "n1" "/out/n1.tar"
    ⟨"notes.txt", true, [10, 20, 30]⟩ rfl (by decide) rfl

/-- Claim C10: a member that decodes as an image is saved at the joined
member path, whose final component is the member's original name
unchanged, and its content is the JPEG-quality-95 encoding of the image
after conversion to RGB mode and resizing to 256 by 256; the output
filename is never rewritten to match the converted format. -/
theorem extract_tar_image_saved_under_original_name (ops : ImageOps)
    (t pid tp : String) (m : TarMember) (img : PILImage) (out : List Nat)
    (hf : m.isfile = true)
    (hchk : passesCheck (pathJoin t pid) m = true)
    (hd : ops.decode m.data = some img)
    (he : ops.encodeJPEG95 (resizeLanczos (convertRGB img) 256 256) = some out) :
    extract_tar ops pid tp (some t) (some [m]) =
      Except.ok [(pathJoin (pathJoin t pid) m.name, out)] ∧
    (resizeLanczos (convertRGB img) 256 256).mode = "RGB" ∧
    (resizeLanczos (convertRGB img) 256 256).width = 256 ∧
    (resizeLanczos (convertRGB img) 256 256).height = 256 := by
  have h1 := processMember_decode_ok ops (pathJoin t pid) m img out hf hchk hd he
  refine ⟨?_, rfl, rfl, rfl⟩
  have hmw : memberWrite ops (pathJoin t pid) m =
      some (pathJoin (pathJoin t pid) m.name, out) := by
    unfold memberWrite
    rw [h1]
  have h2 := extractLoop_eq_filterMap ops (pathJoin t pid) [m]
    (fun x hx => by
      rcases List.mem_singleton.mp hx with rfl
      rw [h1, hmw])
  rw [extract_tar_some, List.filter_cons_of_pos (by simpa using hf),
    List.filter_nil, h2]
  simp [List.filterMap_cons, hmw]

/-- Witness for C10 at a concrete input: an entry named photo.png whose
bytes decode; the written file is still named photo.png and carries the
encoder's output for the RGB 256 by 256 image. -/
theorem extract_tar_image_saved_under_original_name_witness :
    extract_tar
        ⟨fun b => if b = [1] then some ⟨10, 20, "P", [7]⟩ else none,
          fun i => some (255 :: i.payload)⟩
        "n1" "/out/n1.tar" (some "/out") (some [⟨"photo.png", true, [1]⟩]) =
      Except.ok [(pathJoin (pathJoin "/out" "n1") "photo.png", [255, 7])] ∧
    (resizeLanczos (convertRGB ⟨10, 20, "P", [7]⟩) 256 256).mode = "RGB" ∧
    (resizeLanczos (convertRGB ⟨10, 20, "P", [7]⟩) 256 256).width = 256 ∧
    (resizeLanczos (convertRGB ⟨10, 20, "P", [7]⟩) 256 256).height = 256 :=
  extract_tar_image_saved_under_original_name
    ⟨fun b => if b = [1] then some ⟨10, 20, "P", [7]⟩ else none,
      fun i => some (255 :: i.payload)⟩
    "/out" "n1" "/out/n1.tar" ⟨"photo.png", true, [1]⟩ ⟨10, 20, "P", [7]⟩ [255, 7]
    rfl (by decide) rfl rfl

/-! ## Helper lemmas about the filesystem model -/

lemma files_makedirs (fs : FS) (p : IPath) : (fs.makedirs p).files = fs.files := by
  unfold FS.makedirs
  split <;> rfl

lemma logLines_makedirs (fs : FS) (p : IPath) :
    (fs.makedirs p).logLines = fs.logLines := by
  unfold FS.makedirs
  split <;> rfl

lemma mem_dirs_makedirs {fs : FS} {p q : IPath} :
    q ∈ (fs.makedirs p).dirs ↔ q = p ∨ q ∈ fs.dirs := by
  unfold FS.makedirs
  split
  · rename_i hp
    constructor
    · exact fun h => Or.inr h
    · rintro (rfl | h)
      · exact hp
      · exact h
  · simp [List.mem_cons]

lemma mem_files_writeFile {fs : FS} {p q : IPath} :
    q ∈ (fs.writeFile p).files ↔ q = p ∨ q ∈ fs.files := by
  unfold FS.writeFile
  split
  · rename_i hp
    constructor
    · exact fun h => Or.inr h
    · rintro (rfl | h)
      · exact hp
      · exact h
  · simp [List.mem_cons]

lemma dirs_writeFile (fs : FS) (p : IPath) : (fs.writeFile p).dirs = fs.dirs := by
  unfold FS.writeFile
  split <;> rfl

lemma logLines_writeFile (fs : FS) (p : IPath) :
    (fs.writeFile p).logLines = fs.logLines := by
  unfold FS.writeFile
  split <;> rfl

lemma mem_files_removeFile {fs : FS} {p q : IPath} :
    q ∈ (fs.removeFile p).files ↔ q ∈ fs.files ∧ q ≠ p := by
  unfold FS.removeFile
  simp [List.mem_filter]

lemma dirs_removeFile (fs : FS) (p : IPath) : (fs.removeFile p).dirs = fs.dirs := rfl

lemma logLines_removeFile (fs : FS) (p : IPath) :
    (fs.removeFile p).logLines = fs.logLines := rfl

lemma mem_files_rmtree {fs : FS} {b i : String} {q : IPath} :
    q ∈ (fs.rmtree b i).files ↔ q ∈ fs.files ∧ underExtractDir b i q = false := by
  unfold FS.rmtree
  simp [List.mem_filter]

lemma mem_dirs_rmtree {fs : FS} {b i : String} {q : IPath} :
    q ∈ (fs.rmtree b i).dirs ↔ q ∈ fs.dirs ∧ underExtractDir b i q = false := by
  unfold FS.rmtree
  simp [List.mem_filter]

lemma logLines_rmtree (fs : FS) (b i : String) :
    (fs.rmtree b i).logLines = fs.logLines := rfl

lemma files_appendLog (fs : FS) (l : String) : (fs.appendLog l).files = fs.files := rfl

lemma logLines_appendLog (fs : FS) (l : String) :
    (fs.appendLog l).logLines = fs.logLines ++ [l] := rfl

lemma pathExists_false_iff {fs : FS} {p : IPath} :
    fs.pathExists p = false ↔ p ∉ fs.files ∧ p ∉ fs.dirs := by
  unfold FS.pathExists
  simp

lemma pathExists_true_of_mem_files {fs : FS} {p : IPath} (h : p ∈ fs.files) :
    fs.pathExists p = true := by
  unfold FS.pathExists
  simp [h]

lemma files_preClean_sub {b i : String} {fs : FS} {q : IPath}
    (h : q ∈ (preClean b i fs).files) : q ∈ fs.files := by
  unfold preClean at h
  split at h
  all_goals dsimp only at h
  · split at h
    · exact (mem_files_rmtree.mp (mem_files_removeFile.mp h).1).1
    · exact (mem_files_rmtree.mp h).1
  · split at h
    · exact (mem_files_removeFile.mp h).1
    · exact h

lemma logLines_preClean (b i : String) (fs : FS) :
    (preClean b i fs).logLines = fs.logLines := by
  unfold preClean
  split
  all_goals dsimp only
  · split <;> rfl
  · split <;> rfl

lemma makedirs_of_mem (fs : FS) (p : IPath) (h : p ∈ fs.dirs) : fs.makedirs p = fs := by
  unfold FS.makedirs
  rw [if_pos h]

lemma download_tar_skip (id base : String) (dt : Bool) (net : NetResult)
    (ext : ExtractResult) (fs : FS)
    (hdir : IPath.baseDir base ∈ fs.dirs)
    (hm : IPath.marker base id ∈ fs.files) :
    download_tar id base dt net ext fs = ⟨fs, ⟨id, true, none, true⟩, false⟩ := by
  unfold download_tar
  dsimp only
  rw [makedirs_of_mem fs _ hdir, if_pos (pathExists_true_of_mem_files hm)]

lemma failCleanup_result (id base msg : String) (fs : FS) :
    (failCleanup id base msg fs).result = ⟨id, false, some msg, false⟩ := rfl

lemma failCleanup_files_sub {id base msg : String} {fs : FS} {q : IPath}
    (h : q ∈ (failCleanup id base msg fs).fs.files) : q ∈ fs.files := by
  unfold failCleanup at h
  dsimp only at h
  split at h
  · exact (mem_files_removeFile.mp h).1
  · exact h

lemma failCleanup_tar_notin (id base msg : String) (fs : FS) :
    IPath.tarFile base id ∉ (failCleanup id base msg fs).fs.files := by
  unfold failCleanup
  dsimp only
  split
  · intro hmem
    exact (mem_files_removeFile.mp hmem).2 rfl
  · rename_i hne
    rw [Bool.not_eq_true] at hne
    exact (pathExists_false_iff.mp hne).1

lemma failCleanup_logLines (id base msg : String) (fs : FS) :
    (failCleanup id base msg fs).fs.logLines = fs.logLines ++ [id ++ " - " ++ msg] := by
  unfold failCleanup
  dsimp only
  split <;> rfl

lemma marker_downloadPhase (id base : String) (dt : Bool) (net : NetResult)
    (ext : ExtractResult) (fs : FS) (hm : IPath.marker base id ∉ fs.files) :
    ((downloadPhase id base dt net ext fs).result.success = false →
      IPath.marker base id ∉ (downloadPhase id base dt net ext fs).fs.files) ∧
    (IPath.marker base id ∈ (downloadPhase id base dt net ext fs).fs.files →
      net = NetResult.ok ∧ ∃ ws, ext = ExtractResult.ok ws) := by
  have hmw : IPath.marker base id ∉ (fs.writeFile (IPath.tarFile base id)).files := by
    intro hmem
    rcases mem_files_writeFile.mp hmem with heq | hmem2
    · cases heq
    · exact hm hmem2
  cases net with
  | err msg tc =>
    cases tc with
    | true =>
      have hnot : IPath.marker base id ∉
          (downloadPhase id base dt (NetResult.err msg true) ext fs).fs.files := by
        intro hmem
        exact hmw (failCleanup_files_sub hmem)
      exact ⟨fun _ => hnot, fun hmem => absurd hmem hnot⟩
    | false =>
      have hnot : IPath.marker base id ∉
          (downloadPhase id base dt (NetResult.err msg false) ext fs).fs.files := by
        intro hmem
        exact hm (failCleanup_files_sub hmem)
      exact ⟨fun _ => hnot, fun hmem => absurd hmem hnot⟩
  | ok =>
    cases ext with
    | err msg =>
      have hnot : IPath.marker base id ∉
          (downloadPhase id base dt NetResult.ok (ExtractResult.err msg) fs).fs.files := by
        intro hmem
        exact hmw (failCleanup_files_sub hmem)
      exact ⟨fun _ => hnot, fun hmem => absurd hmem hnot⟩
    | ok ws =>
      constructor
      · intro h
        cases h
      · intro _
        exact ⟨rfl, ws, rfl⟩

/-! ## Claim theorems: the Resumable Item Pipeline -/

/-- Claim C2, counterexample: the claim asserts that on extraction
failure the archive file is left on disk for manual inspection, and is
only removed on download failure or (when configured) after success.  At
this concrete input (item n001, base directory out containing nothing
but the base directory itself, a successful download and a failing
extraction) download_tar takes the extraction-failure path, records the
failure, yet the archive file out/n001.tar is NOT in the resulting
filesystem: the generic exception handler of lines 285-290 deletes it. -/
theorem download_tar_extraction_failure_cex :
    ((download_tar "n001" "out" false NetResult.ok (ExtractResult.err "boom")
        ⟨[], [IPath.baseDir "out"], []⟩).result.success = false) ∧
    ((download_tar "n001" "out" false NetResult.ok (ExtractResult.err "boom")
        ⟨[], [IPath.baseDir "out"], []⟩).result.error = some "boom") ∧
    ((download_tar "n001" "out" false NetResult.ok (ExtractResult.err "boom")
        ⟨[], [IPath.baseDir "out"], []⟩).fs.logLines = ["n001 - boom"]) ∧
    (IPath.tarFile "out" "n001" ∉
      (download_tar "n001" "out" false NetResult.ok (ExtractResult.err "boom")
        ⟨[], [IPath.baseDir "out"], []⟩).fs.files) := by
  decide

/-- Claim C2 as amended: when extraction of a downloaded archive fails,
download_tar records the failure (appending the item id and error text
to the failure log) and returns the item as failed, and the failure
handler removes the local archive file, exactly as it does on download
failure; the archive is not retained for inspection. -/
theorem download_tar_extraction_failure_cleanup (id base msg : String) (dt : Bool)
    (fs : FS)
    (hnm : (fs.makedirs (IPath.baseDir base)).pathExists (IPath.marker base id) = false) :
    (download_tar id base dt NetResult.ok (ExtractResult.err msg) fs).result =
      ⟨id, false, some msg, false⟩ ∧
    (download_tar id base dt NetResult.ok (ExtractResult.err msg) fs).fs.logLines =
      fs.logLines ++ [id ++ " - " ++ msg] ∧
    IPath.tarFile base id ∉
      (download_tar id base dt NetResult.ok (ExtractResult.err msg) fs).fs.files := by
  unfold download_tar
  dsimp only
  rw [if_neg (by simp [hnm])]
  unfold downloadPhase
  refine ⟨failCleanup_result id base msg _, ?_, failCleanup_tar_notin id base msg _⟩
  rw [failCleanup_logLines, logLines_writeFile, logLines_preClean, logLines_makedirs]

/-- Witness for C2's amended theorem at a concrete input. -/
theorem download_tar_extraction_failure_cleanup_witness :
    (download_tar "n002" "out" true NetResult.ok (ExtractResult.err "bad tar")
        ⟨[], [IPath.baseDir "out"], []⟩).result = ⟨"n002", false, some "bad tar", false⟩ ∧
    (download_tar "n002" "out" true NetResult.ok (ExtractResult.err "bad tar")
        ⟨[], [IPath.baseDir "out"], []⟩).fs.logLines = [] ++ ["n002 - bad tar"] ∧
    IPath.tarFile "out" "n002" ∉
      (download_tar "n002" "out" true NetResult.ok (ExtractResult.err "bad tar")
        ⟨[], [IPath.baseDir "out"], []⟩).fs.files :=
  download_tar_extraction_failure_cleanup "n002" "out" "bad tar" true
    ⟨[], [IPath.baseDir "out"], []⟩ (by decide)

/-- Claim C3: the completion marker is written only after extraction has
returned successfully.  If the pipeline fails (result not successful),
the marker is absent from the resulting filesystem; and whenever the
marker is present afterwards, either it was already present before the
call (the skip path) or the download and the extraction both
succeeded. -/
theorem download_tar_marker_only_after_extract (id base : String) (dt : Bool)
    (net : NetResult) (ext : ExtractResult) (fs : FS) :
    ((download_tar id base dt net ext fs).result.success = false →
      IPath.marker base id ∉ (download_tar id base dt net ext fs).fs.files) ∧
    (IPath.marker base id ∈ (download_tar id base dt net ext fs).fs.files →
      IPath.marker base id ∈ fs.files ∨
        (net = NetResult.ok ∧ ∃ ws, ext = ExtractResult.ok ws)) := by
  unfold download_tar
  dsimp only
  split
  · constructor
    · intro h
      cases h
    · intro h
      left
      rw [files_makedirs] at h
      exact h
  · rename_i hnm
    rw [Bool.not_eq_true] at hnm
    have hnm1 : IPath.marker base id ∉ (fs.makedirs (IPath.baseDir base)).files :=
      (pathExists_false_iff.mp hnm).1
    have hnm2 : IPath.marker base id ∉
        (preClean base id (fs.makedirs (IPath.baseDir base))).files :=
      fun hmem => hnm1 (files_preClean_sub hmem)
    have hmain := marker_downloadPhase id base dt net ext _ hnm2
    exact ⟨hmain.1, fun h => Or.inr (hmain.2 h)⟩

/-- Witness for C3 at concrete inputs: a failed extraction leaves no
marker; a marker present after a successful fresh run implies the
download and extraction both succeeded (discharged at a run where they
did). -/
theorem download_tar_marker_only_after_extract_witness :
    (IPath.marker "out" "n1" ∉
      (download_tar "n1" "out" false NetResult.ok (ExtractResult.err "boom")
        ⟨[], [IPath.baseDir "out"], []⟩).fs.files) ∧
    (IPath.marker "out" "n2" ∈ [] ∨
      (NetResult.ok = NetResult.ok ∧
        ∃ ws, ExtractResult.ok ["img.jpg"] = ExtractResult.ok ws)) :=
  ⟨(download_tar_marker_only_after_extract "n1" "out" false NetResult.ok
      (ExtractResult.err "boom") ⟨[], [IPath.baseDir "out"], []⟩).1 (by decide),
   (download_tar_marker_only_after_extract "n2" "out" false NetResult.ok
      (ExtractResult.ok ["img.jpg"]) ⟨[], [IPath.baseDir "out"], []⟩).2 (by decide)⟩

lemma preClean_extractDir_notin (b i : String) (fs : FS) :
    IPath.extractDir b i ∉ (preClean b i fs).dirs := by
  unfold preClean
  dsimp only
  split
  · intro h
    have h2 : IPath.extractDir b i ∈ (fs.rmtree b i).dirs := by
      split at h
      · rw [dirs_removeFile] at h
        exact h
      · exact h
    have := (mem_dirs_rmtree.mp h2).2
    simp [underExtractDir] at this
  · rename_i hne
    rw [Bool.not_eq_true] at hne
    have hd := (pathExists_false_iff.mp hne).2
    intro h
    have h2 : IPath.extractDir b i ∈ fs.dirs := by
      split at h
      · rw [dirs_removeFile] at h
        exact h
      · exact h
    exact hd h2

lemma preClean_tar_notin (b i : String) (fs : FS) :
    IPath.tarFile b i ∉ (preClean b i fs).files := by
  unfold preClean
  dsimp only
  split
  · split
    · intro h
      exact (mem_files_removeFile.mp h).2 rfl
    · rename_i hne
      rw [Bool.not_eq_true] at hne
      exact (pathExists_false_iff.mp hne).1
  · split
    · intro h
      exact (mem_files_removeFile.mp h).2 rfl
    · rename_i hne
      rw [Bool.not_eq_true] at hne
      exact (pathExists_false_iff.mp hne).1

lemma preClean_under_clean (b i : String) (fs1 : FS)
    (hwf1 : ∀ p : IPath, underExtractDir b i p = true →
      p ∈ fs1.files ∨ p ∈ fs1.dirs → IPath.extractDir b i ∈ fs1.dirs) :
    ∀ p : IPath, underExtractDir b i p = true →
      p ∉ (preClean b i fs1).files ∧ p ∉ (preClean b i fs1).dirs := by
  intro p hp
  unfold preClean
  dsimp only
  split
  · constructor
    · intro h
      have h2 : p ∈ (fs1.rmtree b i).files := by
        split at h
        · exact (mem_files_removeFile.mp h).1
        · exact h
      have := (mem_files_rmtree.mp h2).2
      rw [hp] at this
      cases this
    · intro h
      have h2 : p ∈ (fs1.rmtree b i).dirs := by
        split at h
        · rw [dirs_removeFile] at h
          exact h
        · exact h
      have := (mem_dirs_rmtree.mp h2).2
      rw [hp] at this
      cases this
  · rename_i hne
    rw [Bool.not_eq_true] at hne
    have hd := (pathExists_false_iff.mp hne).2
    constructor
    · intro h
      have h2 : p ∈ fs1.files := by
        split at h
        · exact (mem_files_removeFile.mp h).1
        · exact h
      exact hd (hwf1 p hp (Or.inl h2))
    · intro h
      have h2 : p ∈ fs1.dirs := by
        split at h
        · rw [dirs_removeFile] at h
          exact h
        · exact h
      exact hd (hwf1 p hp (Or.inr h2))

/-- Claim C5: for an item without a completion marker, download_tar
unconditionally clears stale state before downloading: after the cleanup
step the extraction directory is gone, every path below it is gone, the
archive file is gone, and download_tar on such an item is exactly the
download phase run on the cleaned filesystem.  The well-formedness
hypothesis states the filesystem invariant that a path below the
extraction directory can only exist when the directory itself does. -/
theorem download_tar_precleans_fresh_slate (id base : String) (dt : Bool)
    (net : NetResult) (ext : ExtractResult) (fs : FS)
    (hwf : ∀ p : IPath, underExtractDir base id p = true →
      p ∈ fs.files ∨ p ∈ fs.dirs → IPath.extractDir base id ∈ fs.dirs)
    (hnm : (fs.makedirs (IPath.baseDir base)).pathExists (IPath.marker base id) = false) :
    IPath.extractDir base id ∉
      (preClean base id (fs.makedirs (IPath.baseDir base))).dirs ∧
    IPath.tarFile base id ∉
      (preClean base id (fs.makedirs (IPath.baseDir base))).files ∧
    (∀ p : IPath, underExtractDir base id p = true →
      p ∉ (preClean base id (fs.makedirs (IPath.baseDir base))).files ∧
      p ∉ (preClean base id (fs.makedirs (IPath.baseDir base))).dirs) ∧
    download_tar id base dt net ext fs =
      downloadPhase id base dt net ext
        (preClean base id (fs.makedirs (IPath.baseDir base))) := by
  have hwf1 : ∀ p : IPath, underExtractDir base id p = true →
      p ∈ (fs.makedirs (IPath.baseDir base)).files ∨
        p ∈ (fs.makedirs (IPath.baseDir base)).dirs →
      IPath.extractDir base id ∈ (fs.makedirs (IPath.baseDir base)).dirs := by
    intro p hp hmem
    have hin : IPath.extractDir base id ∈ fs.dirs := by
      apply hwf p hp
      rcases hmem with hmf | hmd
      · left
        rw [files_makedirs] at hmf
        exact hmf
      · rcases mem_dirs_makedirs.mp hmd with heq | hmem2
        · exfalso
          subst heq
          simp [underExtractDir] at hp
        · right
          exact hmem2
    exact mem_dirs_makedirs.mpr (Or.inr hin)
  refine ⟨preClean_extractDir_notin base id _, preClean_tar_notin base id _,
    preClean_under_clean base id _ hwf1, ?_⟩
  unfold download_tar
  dsimp only
  rw [if_neg (by simp [hnm])]

/-- Witness for C5 at a concrete input: a stale extraction directory
with a leftover extracted file and a stale archive all disappear in the
cleanup, and download_tar factors through it. -/
theorem download_tar_precleans_fresh_slate_witness :
    IPath.extractDir "out" "n1" ∉
      (preClean "out" "n1" ((⟨[IPath.tarFile "out" "n1", IPath.extracted "out" "n1" "old.jpg"],
        [IPath.baseDir "out", IPath.extractDir "out" "n1"], []⟩ : FS).makedirs
          (IPath.baseDir "out"))).dirs ∧
    IPath.tarFile "out" "n1" ∉
      (preClean "out" "n1" ((⟨[IPath.tarFile "out" "n1", IPath.extracted "out" "n1" "old.jpg"],
        [IPath.baseDir "out", IPath.extractDir "out" "n1"], []⟩ : FS).makedirs
          (IPath.baseDir "out"))).files ∧
    (∀ p : IPath, underExtractDir "out" "n1" p = true →
      p ∉ (preClean "out" "n1" ((⟨[IPath.tarFile "out" "n1", IPath.extracted "out" "n1" "old.jpg"],
        [IPath.baseDir "out", IPath.extractDir "out" "n1"], []⟩ : FS).makedirs
          (IPath.baseDir "out"))).files ∧
      p ∉ (preClean "out" "n1" ((⟨[IPath.tarFile "out" "n1", IPath.extracted "out" "n1" "old.jpg"],
        [IPath.baseDir "out", IPath.extractDir "out" "n1"], []⟩ : FS).makedirs
          (IPath.baseDir "out"))).dirs) ∧
    download_tar "n1" "out" false NetResult.ok (ExtractResult.ok ["a.jpg"])
        ⟨[IPath.tarFile "out" "n1", IPath.extracted "out" "n1" "old.jpg"],
          [IPath.baseDir "out", IPath.extractDir "out" "n1"], []⟩ =
      downloadPhase "n1" "out" false NetResult.ok (ExtractResult.ok ["a.jpg"])
        (preClean "out" "n1" ((⟨[IPath.tarFile "out" "n1", IPath.extracted "out" "n1" "old.jpg"],
          [IPath.baseDir "out", IPath.extractDir "out" "n1"], []⟩ : FS).makedirs
            (IPath.baseDir "out"))) :=
  download_tar_precleans_fresh_slate "n1" "out" false NetResult.ok
    (ExtractResult.ok ["a.jpg"])
    ⟨[IPath.tarFile "out" "n1", IPath.extracted "out" "n1" "old.jpg"],
      [IPath.baseDir "out", IPath.extractDir "out" "n1"], []⟩
    (fun _ _ _ => by decide) (by decide)

lemma batch_fold_all_skipped (base : String) (dt : Bool)
    (netf : String → NetResult) (extf : String → ExtractResult) :
    ∀ (ids : List String) (st : BatchState),
      IPath.baseDir base ∈ st.fs.dirs →
      (∀ i ∈ ids, IPath.marker base i ∈ st.fs.files) →
      ids.foldl (batchStep base dt netf extf) st =
        ⟨⟨st.stats.success, st.stats.failed, st.stats.skipped + ids.length⟩,
          st.fs, st.downloads⟩
  | [], st, _, _ => by
    cases st with
    | mk stats fsx d => cases stats; rfl
  | i :: rest, st, hdir, hall => by
    rw [List.foldl_cons]
    have hstep : batchStep base dt netf extf st i =
        ⟨⟨st.stats.success, st.stats.failed, st.stats.skipped + 1⟩, st.fs,
          st.downloads⟩ := by
      unfold batchStep
      rw [download_tar_skip i base dt (netf i) (extf i) st.fs hdir
        (hall i (List.mem_cons_self i rest))]
      simp [tally]
    rw [hstep]
    rw [batch_fold_all_skipped base dt netf extf rest
      ⟨⟨st.stats.success, st.stats.failed, st.stats.skipped + 1⟩, st.fs, st.downloads⟩
      hdir (fun j hj => hall j (List.mem_cons_of_mem i hj))]
    have hk : st.stats.skipped + 1 + rest.length = st.stats.skipped + (i :: rest).length := by
      simp [List.length_cons]
      omega
    rw [hk]

/-- Claim C4: an item whose completion marker already exists is returned
as a successful skip with no error; the call makes no network request
and leaves the filesystem exactly as it was (no deletion, no write).
Consequently a batch over items that all carry markers performs zero
downloads, changes nothing on disk, and reports skipped equal to the
number of items with zero successes and zero failures. -/
theorem download_tar_skip_and_second_run_idempotent (id base : String) (dt : Bool)
    (net : NetResult) (ext : ExtractResult)
    (ids : List String) (netf : String → NetResult) (extf : String → ExtractResult)
    (fs : FS)
    (hdir : IPath.baseDir base ∈ fs.dirs)
    (hm : IPath.marker base id ∈ fs.files)
    (hall : ∀ i ∈ ids, IPath.marker base i ∈ fs.files) :
    download_tar id base dt net ext fs = ⟨fs, ⟨id, true, none, true⟩, false⟩ ∧
    download_batch_run ids base dt netf extf fs = ⟨⟨0, 0, ids.length⟩, fs, 0⟩ := by
  refine ⟨download_tar_skip id base dt net ext fs hdir hm, ?_⟩
  unfold download_batch_run
  split
  · rename_i hemp
    have : ids = [] := by
      cases ids with
      | nil => rfl
      | cons a l => cases hemp
    subst this
    rfl
  · rw [batch_fold_all_skipped base dt netf extf ids ⟨⟨0, 0, 0⟩, fs, 0⟩ hdir hall]
    simp

/-- Witness for C4 at a concrete input: both items already carry
markers, so the single call skips without touching anything and the
two-item batch reports two skips, no downloads. -/
theorem download_tar_skip_and_second_run_idempotent_witness :
    download_tar "n1" "out" true NetResult.ok (ExtractResult.ok [])
        ⟨[IPath.marker "out" "n1", IPath.marker "out" "n2"], [IPath.baseDir "out"], []⟩ =
      ⟨⟨[IPath.marker "out" "n1", IPath.marker "out" "n2"], [IPath.baseDir "out"], []⟩,
        ⟨"n1", true, none, true⟩, false⟩ ∧
    download_batch_run ["n1", "n2"] "out" true (fun _ => NetResult.ok)
        (fun _ => ExtractResult.ok [])
        ⟨[IPath.marker "out" "n1", IPath.marker "out" "n2"], [IPath.baseDir "out"], []⟩ =
      ⟨⟨0, 0, ["n1", "n2"].length⟩,
        ⟨[IPath.marker "out" "n1", IPath.marker "out" "n2"], [IPath.baseDir "out"], []⟩, 0⟩ :=
  download_tar_skip_and_second_run_idempotent "n1" "out" true NetResult.ok
    (ExtractResult.ok []) ["n1", "n2"] (fun _ => NetResult.ok)
    (fun _ => ExtractResult.ok [])
    ⟨[IPath.marker "out" "n1", IPath.marker "out" "n2"], [IPath.baseDir "out"], []⟩
    (by decide) (by decide) (by decide)

lemma tally_sum (s : Stats) (o : WorkerOutcome) :
    (tally s o).success + (tally s o).failed + (tally s o).skipped =
      s.success + s.failed + s.skipped + 1 := by
  cases o with
  | result r =>
    rcases hs : r.skipped with _ | _
    · rcases hv : r.success with _ | _
      · simp [tally, hs, hv]
        omega
      · simp [tally, hs, hv]
        omega
    · simp [tally, hs]
      omega
  | exn m =>
    simp [tally]
    omega

lemma foldl_tally_sum :
    ∀ (os : List WorkerOutcome) (s : Stats),
      (os.foldl tally s).success + (os.foldl tally s).failed +
          (os.foldl tally s).skipped =
        s.success + s.failed + s.skipped + os.length
  | [], s => by simp
  | o :: rest, s => by
    rw [List.foldl_cons, foldl_tally_sum rest (tally s o), tally_sum]
    simp [List.length_cons]
    omega

lemma tally_incFailed (s : Stats) (o : WorkerOutcome) :
    tally ⟨s.success, s.failed + 1, s.skipped⟩ o =
      ⟨(tally s o).success, (tally s o).failed + 1, (tally s o).skipped⟩ := by
  cases o with
  | result r =>
    rcases hs : r.skipped with _ | _
    · rcases hv : r.success with _ | _
      · simp [tally, hs, hv]
      · simp [tally, hs, hv]
    · simp [tally, hs]
  | exn m => rfl

lemma foldl_tally_incFailed :
    ∀ (os : List WorkerOutcome) (s : Stats),
      os.foldl tally ⟨s.success, s.failed + 1, s.skipped⟩ =
        ⟨(os.foldl tally s).success, (os.foldl tally s).failed + 1,
          (os.foldl tally s).skipped⟩
  | [], s => rfl
  | o :: rest, s => by
    rw [List.foldl_cons, tally_incFailed, List.foldl_cons]
    exact foldl_tally_incFailed rest (tally s o)

/-- Claim C6: the aggregation of download_batch is sound: over any list
of worker outcomes, in any arrival order, the three counters sum to the
number of outcomes (every outcome increments exactly one counter); and
an unhandled exception from any single pipeline invocation is absorbed
at the aggregation boundary as one extra failure, leaving the tallies of
every other outcome unchanged. -/
theorem download_batch_tally_sound (os os1 os2 : List WorkerOutcome) (e : String) :
    (download_batch_tally os).success + (download_batch_tally os).failed +
        (download_batch_tally os).skipped = os.length ∧
    download_batch_tally (os1 ++ WorkerOutcome.exn e :: os2) =
      ⟨(download_batch_tally (os1 ++ os2)).success,
        (download_batch_tally (os1 ++ os2)).failed + 1,
        (download_batch_tally (os1 ++ os2)).skipped⟩ := by
  constructor
  · have h := foldl_tally_sum os ⟨0, 0, 0⟩
    simpa [download_batch_tally] using h
  · unfold download_batch_tally
    rw [List.foldl_append, List.foldl_append, List.foldl_cons]
    have h1 : tally (os1.foldl tally ⟨0, 0, 0⟩) (WorkerOutcome.exn e) =
        ⟨(os1.foldl tally ⟨0, 0, 0⟩).success, (os1.foldl tally ⟨0, 0, 0⟩).failed + 1,
          (os1.foldl tally ⟨0, 0, 0⟩).skipped⟩ := rfl
    rw [h1]
    exact foldl_tally_incFailed os2 (os1.foldl tally ⟨0, 0, 0⟩)

lemma pm_inv_init (n : Nat) : PMInv n (PositionManager.init n) := by
  refine ⟨rfl, List.sorted_le_range n, ?_, ?_⟩
  · intro x hx
    exact List.mem_range.mp hx
  · intro q hq
    exact absurd hq (List.not_mem_nil q)

lemma pm_inv_acquire (n : Nat) (pm : PositionManager) (t : String)
    (h : PMInv n pm) : PMInv n (pm.acquire t).2 := by
  obtain ⟨hw, hs, ha, hu⟩ := h
  unfold PositionManager.acquire
  rcases hav : pm.available with _ | ⟨pos, rest⟩
  · exact ⟨hw, hs, ha, hu⟩
  · have hs2 : (pos :: rest).Sorted (· ≤ ·) := hav ▸ hs
    refine ⟨hw, (List.sorted_cons.mp hs2).2, ?_, ?_⟩
    · intro x hx
      exact ha x (by rw [hav]; exact List.mem_cons_of_mem pos hx)
    · intro q hq
      rcases List.mem_cons.mp hq with heq | hmem
    
      · subst heq
        exact ha pos (by rw [hav]; exact List.mem_cons_self pos rest)
      · exact hu q (List.mem_filter.mp hmem).1

lemma pm_inv_release (n : Nat) (pm : PositionManager) (t : String)
    (h : PMInv n pm) : PMInv n (pm.release t) := by
  obtain ⟨hw, hs, ha, hu⟩ := h
  unfold PositionManager.release
  rcases hlk : lookupOwner pm.in_use t with _ | pos
  · exact ⟨hw, hs, ha, hu⟩
  · have hposn : pos < n := by
      unfold lookupOwner at hlk
      rcases hfind : pm.in_use.find? (fun q => decide (q.1 = t)) with _ | q0
      · rw [hfind] at hlk
        cases hlk
      · rw [hfind] at hlk
        have hq2 : q0.2 = pos := by
          simpa using hlk
        have hmem := List.mem_of_find?_eq_some hfind
        exact hq2 ▸ hu q0 hmem
    refine ⟨hw, ?_, ?_, ?_⟩
    · exact List.sorted_insertionSort (· ≤ ·) (pm.available ++ [pos])
    · intro x hx
      rcases List.mem_append.mp ((List.mem_insertionSort (· ≤ ·)).mp hx) with h1 | h2
      · exact ha x h1
      · rw [List.mem_singleton.mp h2]
        exact hposn
    · intro q hq
      exact hu q (List.mem_filter.mp hq).1

lemma pm_reach_inv (n : Nat) (pm : PositionManager) (h : PMReach n pm) :
    PMInv n pm := by
  induction h with
  | init => exact pm_inv_init n
  | step hr hstep ih =>
    cases hstep with
    | acquire t => exact pm_inv_acquire n _ t ih
    | release t => exact pm_inv_release n _ t ih

/-- Claim C9: on every allocator state reachable by some sequence of
acquire and release calls, acquire returns 0 and changes nothing when
the free pool is empty, and otherwise returns the lowest currently-free
slot, which lies in the slot range; release returns the recorded slot of
an owner to the free pool, keeping the free list sorted (so the lowest
free slot is reused first) and removing the owner's record, while a
release by an owner holding no recorded slot leaves the state
unchanged. -/
theorem positionManager_acquire_release_spec (n : Nat) (pm : PositionManager)
    (h : PMReach n pm) (t t' : String) (pos : Nat)
    (hpos : lookupOwner pm.in_use t = some pos)
    (hnone : lookupOwner pm.in_use t' = none) :
    (pm.available = [] → (pm.acquire t).1 = 0 ∧ (pm.acquire t).2 = pm) ∧
    (pm.available ≠ [] →
      (pm.acquire t).1 ∈ pm.available ∧
      (∀ x ∈ pm.available, (pm.acquire t).1 ≤ x) ∧
      (pm.acquire t).1 < n) ∧
    (List.Sorted (· ≤ ·) (pm.release t).available ∧
      (pm.release t).available.Perm (pm.available ++ [pos]) ∧
      (pm.release t).in_use = removeOwner pm.in_use t) ∧
    pm.release t' = pm := by
  obtain ⟨hw, hs, ha, hu⟩ := pm_reach_inv n pm h
  refine ⟨?_, ?_, ?_, ?_⟩
  · intro hav
    unfold PositionManager.acquire
    rw [hav]
    exact ⟨rfl, rfl⟩
  · intro hav
    rcases hA : pm.available with _ | ⟨p0, rest⟩
    · exact absurd hA hav
    · have hacq : (pm.acquire t).1 = p0 := by
        unfold PositionManager.acquire
        rw [hA]
      rw [hacq]
      have hs2 : (p0 :: rest).Sorted (· ≤ ·) := hA ▸ hs
      have hmem0 : p0 ∈ pm.available := by
        rw [hA]
        exact List.mem_cons_self p0 rest
      refine ⟨List.mem_cons_self p0 rest, ?_, ha p0 hmem0⟩
      intro x hx
      rcases List.mem_cons.mp hx with h1 | h2
      · exact le_of_eq h1.symm
      · exact (List.sorted_cons.mp hs2).1 x h2
  · unfold PositionManager.release
    rw [hpos]
    exact ⟨List.sorted_insertionSort (· ≤ ·) (pm.available ++ [pos]),
      List.perm_insertionSort (· ≤ ·) (pm.available ++ [pos]), rfl⟩
  · unfold PositionManager.release
    rw [hnone]

/-- Witness for C9 on a concrete reachable state: after one acquire on a
two-slot allocator, owner a holds slot 0, the free pool is the singleton
1, a further acquire would hand out 1, releasing a returns 0 to a sorted
pool, and releasing the unknown owner b changes nothing. -/
theorem positionManager_acquire_release_spec_witness :
    let pmw := ((PositionManager.init 2).acquire "a").2
    (pmw.available = [] → (pmw.acquire "a").1 = 0 ∧ (pmw.acquire "a").2 = pmw) ∧
    (pmw.available ≠ [] →
      (pmw.acquire "a").1 ∈ pmw.available ∧
      (∀ x ∈ pmw.available, (pmw.acquire "a").1 ≤ x) ∧
      (pmw.acquire "a").1 < 2) ∧
    (List.Sorted (· ≤ ·) (pmw.release "a").available ∧
      (pmw.release "a").available.Perm (pmw.available ++ [0]) ∧
      (pmw.release "a").in_use = removeOwner pmw.in_use "a") ∧
    pmw.release "b" = pmw :=
  positionManager_acquire_release_spec 2 ((PositionManager.init 2).acquire "a").2
    (PMReach.step PMReach.init (PMStep.acquire (PositionManager.init 2) "a"))
    "a" "b" 0 (by decide) (by decide)

end ImagenetDL
